import Mathlib

/-!
Shallow embedding of the AI-daily-news collector/processor pipeline
(src/collector.py, src/processor.py).

Text is modelled as `List Char`; Python floats used for scores are
modelled as `ℚ` (all scores arise from integer weights, the rational
multipliers of the source tiers, and integer bonuses); fallible calls
are modelled with `Except`.
-/

namespace AIDailyNews

/-- A raw or processed news record.  Mirrors the dict produced by
`NewsCollector._collect_from_rss` (title, summary, url, source,
category, priority, pub_date); a key that a producer leaves out of the
dict (e.g. the backup generator omits `url` and `pub_date`) is the
empty string, matching `news.get(key, "")` at every consumer. -/
structure NewsItem where
  title : List Char
  summary : List Char
  url : List Char
  source : List Char
  category : List Char
  priority : List Char
  pub_date : List Char
  deriving DecidableEq, Repr

/-- Python `str.lower()` restricted to the per-character case mapping. -/
def lowerStr (t : List Char) : List Char := t.map Char.toLower

/-- Test that `pat` is a prefix of `l` (Python slice equality). -/
def startsWithL : List Char → List Char → Bool
  | [], _ => true
  | _ :: _, [] => false
  | p :: ps, c :: cs => p == c && startsWithL ps cs

/-- Python `pat in content` substring containment on strings. -/
def containsSub (content pat : List Char) : Bool :=
  match content with
  | [] => pat.isEmpty
  | _ :: rest => startsWithL pat content || containsSub rest pat

/-- One entry of the configured `IMPACT_KEYWORDS` table: a category
name (the dict key), its weight and its keyword list. -/
structure KeywordCategory where
  name : List Char
  weight : ℚ
  keywords : List (List Char)
  deriving DecidableEq

/-- One entry of the configured `SOURCE_WEIGHTS` table: a tier with a
multiplier and the sources it covers. -/
structure SourceTier where
  multiplier : ℚ
  sources : List (List Char)
  deriving DecidableEq

/-- The `category_scores` dict of `ImpactScorer.calculate_score`,
in insertion order. -/
abbrev ScoreDict := List (List Char × ℚ)

/-- Read `category_scores[k]` as `Option` (key lookup in the dict,
insertion order irrelevant for reads). -/
def dictGet : ScoreDict → List Char → Option ℚ
  | [], _ => none
  | (k', v) :: rest, k => if k' = k then some v else dictGet rest k

/-- The effect of
`if category not in category_scores: category_scores[category] = 0`
followed by `category_scores[category] += weight` on the insertion-order
dict. -/
def dictIncr : ScoreDict → List Char → ℚ → ScoreDict
  | [], k, w => [(k, w)]
  | (k', v) :: rest, k, w =>
    if k' = k then (k', v + w) :: rest else (k', v) :: dictIncr rest k w

/-- Body of the inner keyword loop of `ImpactScorer.calculate_score`:
if the lowercased keyword occurs in `content`, bump the category's
entry of `category_scores` by the category weight and append the
keyword to `matched_tags`. -/
def keywordStep (name : List Char) (weight : ℚ) (content : List Char)
    (st : ScoreDict × List (List Char)) (kw : List Char) :
    ScoreDict × List (List Char) :=
  if containsSub content (lowerStr kw) then
    (dictIncr st.1 name weight, st.2 ++ [kw])
  else st

/-- Body of the outer category loop of `ImpactScorer.calculate_score`. -/
def categoryStep (content : List Char) (st : ScoreDict × List (List Char))
    (cfg : KeywordCategory) : ScoreDict × List (List Char) :=
  cfg.keywords.foldl (keywordStep cfg.name cfg.weight content) st

/-- The keyword-matching loops of `ImpactScorer.calculate_score`
(lines 45-55 of processor.py), producing `category_scores` and
`matched_tags` (before tag dedup/truncation). -/
def scoreKeywords (table : List KeywordCategory) (content : List Char) :
    ScoreDict × List (List Char) :=
  table.foldl (categoryStep content) ([], [])

/-- Number of keywords of one category contained in the lowercased
content. -/
def matchedCount (kws : List (List Char)) (content : List Char) : Nat :=
  (kws.filter (fun kw => containsSub content (lowerStr kw))).length

/-- Compute `max(category_scores.values())`, with the initial
`base_score = 0` kept when the dict is empty. -/
def maxValues : ScoreDict → ℚ
  | [] => 0
  | (_, v) :: rest => rest.foldl (fun m p => max m p.2) v

/-- The source-weight lookup of `ImpactScorer.calculate_score`
(lines 61-66): the first tier whose source list contains the source
gives the multiplier, default `1.0`. -/
def sourceMultiplier : List SourceTier → List Char → ℚ
  | [], _ => 1
  | t :: ts, s => if s ∈ t.sources then t.multiplier else sourceMultiplier ts s

/-- The hard-coded `important_title_words` bonus list. -/
def importantTitleWords : List (List Char) :=
  ["breaking".toList, "exclusive".toList, "official".toList, "confirmed".toList,
   "突发".toList, "独家".toList, "官宣".toList, "重磅".toList, "首发".toList]

/-- Embed `ImpactScorer._determine_importance`: score ≥ 80 → "高",
score ≥ 40 → "中", else "低". -/
def determineImportance (score : ℚ) : List Char :=
  if score ≥ 80 then "高".toList
  else if score ≥ 40 then "中".toList
  else "低".toList

/-- Embed `ImpactScorer.calculate_score` without its tag post-processing:
returns the final score and the importance level. -/
def calculateScore (table : List KeywordCategory) (tiers : List SourceTier)
    (news : NewsItem) : ℚ × List Char :=
  let title := lowerStr news.title
  let summary := lowerStr news.summary
  let content := title ++ [' '] ++ summary
  let categoryScores := (scoreKeywords table content).1
  let base : ℚ := maxValues categoryScores
  let mult := sourceMultiplier tiers news.source
  let afterSource := base * mult
  let afterTitleBonus := afterSource +
    20 * ((importantTitleWords.filter (fun w => containsSub title (lowerStr w))).length : ℚ)
  let finalScore :=
    if categoryScores.length ≥ 2 then
      afterTitleBonus + 15 * ((categoryScores.length : ℚ) - 1)
    else afterTitleBonus
  (finalScore, determineImportance finalScore)

/-! Section: ranking (`ImpactScorer.rank_news`). -/

/-- A news record enriched with `impact_score` and `importance`
(the `news_copy` built inside `rank_news`; `auto_tags` is not
modelled, see `calculateScore`). -/
structure ScoredItem where
  item : NewsItem
  impact_score : ℚ
  importance : List Char
  deriving DecidableEq

/-- The scoring step of `rank_news` on one record. -/
def scoreItem (table : List KeywordCategory) (tiers : List SourceTier)
    (n : NewsItem) : ScoredItem :=
  { item := n
  , impact_score := (calculateScore table tiers n).1
  , importance := (calculateScore table tiers n).2 }

/-- Insert into a non-increasing list, after every element of score
`≥` the inserted score (the placement a stable descending sort gives
to a later-arriving element). -/
def insertDesc (x : ScoredItem) : List ScoredItem → List ScoredItem
  | [] => [x]
  | y :: ys =>
    if x.impact_score ≥ y.impact_score then x :: y :: ys
    else y :: insertDesc x ys

/-- Stable non-increasing sort by `impact_score`.  Python's
`list.sort(key=lambda x: x["impact_score"], reverse=True)` is
specified to be exactly the stable non-increasing sort, and the stable
sort is unique, so this insertion sort is its embedding. -/
def sortDesc : List ScoredItem → List ScoredItem
  | [] => []
  | x :: xs => insertDesc x (sortDesc xs)

/-- Embed `ImpactScorer.rank_news` (processor.py lines 102-117): score every
record, then sort by score, descending and stable. -/
def rank_news (table : List KeywordCategory) (tiers : List SourceTier)
    (l : List NewsItem) : List ScoredItem :=
  sortDesc (l.map (scoreItem table tiers))

/-! Section: deduplication (`NewsCollector._deduplicate`). -/

/-- Python's `\w` class as `re.sub(r'[^\w一-鿿]', '', ...)`
applies it to the lowercased title in `_deduplicate`, over the
alphabets the pipeline feeds it: ASCII alphanumerics, the underscore,
and the CJK unified-ideograph block the pattern names explicitly. -/
def isTitleWordChar (c : Char) : Bool :=
  c.isAlphanum || c = '_' || (0x4e00 ≤ c.toNat && c.toNat ≤ 0x9fff)

/-- The `simple_title` key of `_deduplicate`: lowercase, then delete
every character outside `[\w一-鿿]`. -/
def normalizeTitle (t : List Char) : List Char :=
  (lowerStr t).filter isTitleWordChar

/-- The loop of `NewsCollector._deduplicate` (collector.py lines
262-281), with the `seen_titles` and `seen_urls` sets carried
explicitly.  An item is appended iff its `simple_title` is non-empty
and unseen and its url is empty or unseen; only then are its
`simple_title` (and non-empty url) added to the seen sets. -/
def dedupGo : List NewsItem → List (List Char) → List (List Char) → List NewsItem
  | [], _, _ => []
  | n :: rest, seenT, seenU =>
    let st := normalizeTitle n.title
    if st ≠ [] ∧ st ∉ seenT then
      if n.url = [] ∨ n.url ∉ seenU then
        n :: dedupGo rest (st :: seenT)
          (if n.url = [] then seenU else n.url :: seenU)
      else dedupGo rest seenT seenU
    else dedupGo rest seenT seenU

/-- Embed `NewsCollector._deduplicate`, starting from empty seen sets. -/
def deduplicate (l : List NewsItem) : List NewsItem := dedupGo l [] []

/-- Invariant describing lists that `dedupGo` passes through
unchanged: every title key is non-empty and fresh w.r.t. the seen
titles accumulated so far, and every non-empty url is fresh likewise. -/
def GoodDedup : List NewsItem → List (List Char) → List (List Char) → Prop
  | [], _, _ => True
  | n :: rest, seenT, seenU =>
    normalizeTitle n.title ≠ [] ∧ normalizeTitle n.title ∉ seenT ∧
    (n.url = [] ∨ n.url ∉ seenU) ∧
    GoodDedup rest (normalizeTitle n.title :: seenT)
      (if n.url = [] then seenU else n.url :: seenU)

/-! Section: dates. -/

/-- A `datetime.datetime` value (second precision, matching
`%Y-%m-%d %H:%M:%S` round trips in the pipeline). -/
structure DateTime where
  year : Nat
  month : Nat
  day : Nat
  hour : Nat
  minute : Nat
  second : Nat
  deriving DecidableEq, Repr

/-- One decimal digit character. -/
def digitChar (n : Nat) : Char := Char.ofNat (48 + n % 10)

/-- Two-digit zero-padded decimal rendering (`%m`, `%d`, `%H`, `%M`, `%S`). -/
def pad2 (n : Nat) : List Char := [digitChar (n / 10), digitChar n]

/-- Four-digit zero-padded decimal rendering (`%Y` for years < 10000). -/
def pad4 (n : Nat) : List Char :=
  [digitChar (n / 1000), digitChar (n / 100), digitChar (n / 10), digitChar n]

/-- Render `strftime("%Y-%m-%d")`. -/
def fmtDate (d : DateTime) : List Char :=
  pad4 d.year ++ ['-'] ++ pad2 d.month ++ ['-'] ++ pad2 d.day

/-- Render `strftime("%Y-%m-%d %H:%M:%S")`. -/
def fmtDateTime (d : DateTime) : List Char :=
  fmtDate d ++ [' '] ++ pad2 d.hour ++ [':'] ++ pad2 d.minute ++ [':'] ++ pad2 d.second

/-- Gregorian leap year. -/
def isLeapYear (y : Nat) : Bool := (y % 4 == 0 && y % 100 != 0) || y % 400 == 0

/-- Month lengths of the Gregorian calendar. -/
def daysInMonth (y m : Nat) : Nat :=
  match m with
  | 1 => 31 | 2 => if isLeapYear y then 29 else 28 | 3 => 31 | 4 => 30
  | 5 => 31 | 6 => 30 | 7 => 31 | 8 => 31 | 9 => 30 | 10 => 31
  | 11 => 30 | 12 => 31 | _ => 30

/-- The date component of `today - timedelta(days=1)`. -/
def prevDay (d : DateTime) : DateTime :=
  if d.day > 1 then { d with day := d.day - 1 }
  else if d.month > 1 then
    { d with month := d.month - 1, day := daysInMonth d.year (d.month - 1) }
  else { d with year := d.year - 1, month := 12, day := 31 }

/-- Days of the year before the first of month `m`. -/
def daysBeforeMonth (y m : Nat) : Nat :=
  (List.range (m - 1)).foldl (fun acc i => acc + daysInMonth y (i + 1)) 0

/-- Proleptic-Gregorian day number of a date (day 0 = 0001-01-01). -/
def daysSinceEpoch (d : DateTime) : Nat :=
  let y := d.year - 1
  365 * y + y / 4 - y / 100 + y / 400 + daysBeforeMonth d.year d.month + (d.day - 1)

/-- Seconds since the epoch of `daysSinceEpoch`; `datetime` subtraction
compares these. -/
def totalSeconds (d : DateTime) : Nat :=
  ((daysSinceEpoch d * 24 + d.hour) * 60 + d.minute) * 60 + d.second

/-- Decide `datetime.now() - pub_date > timedelta(days=3)` (the loose 3-day
pre-filter of `_collect_from_rss`). -/
def olderThanThreeDays (now pub : DateTime) : Bool :=
  (totalSeconds now : ℤ) - (totalSeconds pub : ℤ) > 3 * 86400

/-- Embed `NewsCollector._filter_by_date` (collector.py lines 283-300):
build the `%Y-%m-%d` strings of today and yesterday from `now`, keep
an item whose `pub_date` is empty, otherwise keep it iff the first ten
characters of its `pub_date` are one of the two valid date strings. -/
def filter_by_date (now : DateTime) (l : List NewsItem) : List NewsItem :=
  let validDates := [fmtDate now, fmtDate (prevDay now)]
  l.filter (fun n =>
    n.pub_date.isEmpty || decide (n.pub_date.take 10 ∈ validDates))

/-! Section: RSS collection (`NewsCollector._collect_from_rss`). -/

/-- A feedparser entry as `_collect_from_rss` and `_parse_pub_date`
consume it: `title`/`link` as raw text, `summary` standing for the
text `_extract_summary` resolves from the entry, and the three
`*_parsed` time fields — `none` models an absent or falsy field,
`Except.error` a present field on which `datetime(*t[:6])` raises. -/
structure Entry where
  title : List Char
  link : List Char
  summary : List Char
  published_parsed : Option (Except Unit DateTime)
  updated_parsed : Option (Except Unit DateTime)
  created_parsed : Option (Except Unit DateTime)

/-- The parsed feed: bozo flag and entry list. -/
structure Feed where
  bozo : Bool
  entries : List Entry

/-- The slice of a `NEWS_SOURCES` record that `_collect_from_rss`
reads into an item. -/
structure SourceDescriptor where
  name : List Char
  category : List Char
  priority : List Char

/-- Embed `NewsCollector._parse_pub_date` (collector.py lines 218-229): the
first present `*_parsed` field wins; a field whose conversion raises
falls through the bare `except` to the final `return datetime.now()`,
as does the all-absent case. -/
def parse_pub_date (e : Entry) (now : DateTime) : Option DateTime :=
  match e.published_parsed with
  | some (Except.ok d) => some d
  | some (Except.error _) => some now
  | none =>
    match e.updated_parsed with
    | some (Except.ok d) => some d
    | some (Except.error _) => some now
    | none =>
      match e.created_parsed with
      | some (Except.ok d) => some d
      | some (Except.error _) => some now
      | none => some now

/-- The character class `[\x00-\x1f\x7f-\x9f]` removed by
`_clean_text`. -/
def isControlChar (c : Char) : Bool :=
  c.toNat ≤ 0x1f || (0x7f ≤ c.toNat && c.toNat ≤ 0x9f)

/-- ASCII whitespace of Python's `\s`. -/
def isPySpace (c : Char) : Bool :=
  c = ' ' || c = '\t' || c = '\n' || c = '\r' || c = '\x0b' || c = '\x0c'

/-- Embed `re.sub(r'\s+', ' ', ·)`: each maximal whitespace run becomes one
space.  The flag records whether the previous character was part of a
run. -/
def collapseAux : Bool → List Char → List Char
  | _, [] => []
  | inRun, c :: rest =>
    if isPySpace c then
      if inRun then collapseAux true rest else ' ' :: collapseAux true rest
    else c :: collapseAux false rest

/-- Embed `str.strip()` on whitespace. -/
def stripWS (l : List Char) : List Char :=
  ((l.dropWhile isPySpace).reverse.dropWhile isPySpace).reverse

/-- Embed `NewsCollector._clean_text`: drop control characters, collapse
whitespace runs, strip. -/
def clean_text (t : List Char) : List Char :=
  stripWS (collapseAux false (t.filter (fun c => !isControlChar c)))

/-- The body of the entry loop of `_collect_from_rss` (collector.py
lines 172-196): parse the publication time, skip entries more than
three days old, build the item dict, and keep it only if the cleaned
title is non-empty of length > 5. -/
def mkNewsItem (src : SourceDescriptor) (now : DateTime) (e : Entry) :
    Option NewsItem :=
  let pub := parse_pub_date e now
  let keep : Bool :=
    match pub with
    | some d => !olderThanThreeDays now d
    | none => true
  if keep then
    let item : NewsItem :=
      { title := clean_text e.title
      , summary := e.summary.take 800
      , url := e.link
      , source := src.name
      , category := src.category
      , priority := src.priority
      , pub_date := match pub with | some d => fmtDateTime d | none => [] }
    if item.title ≠ [] ∧ item.title.length > 5 then some item else none
  else none

/-- Embed `NewsCollector._collect_from_rss` (collector.py lines 154-205)
after the transport call, which is passed in as `resp`:
`Except.error` stands for the `requests` call (or anything before the
loop) raising — every handler returns the empty list; otherwise a
bozo feed without entries yields `[]`, and at most the first 30
entries are turned into items. -/
def collect_from_rss (src : SourceDescriptor) (now : DateTime)
    (resp : Except Unit Feed) : List NewsItem :=
  match resp with
  | Except.error _ => []
  | Except.ok feed =>
    if feed.bozo && feed.entries.isEmpty then []
    else (feed.entries.take 30).filterMap (mkNewsItem src now)

/-- Embed `NewsCollector._collect_from_source_safe` (collector.py lines
132-139): the inner collection either returns a list or raises
(`Except.error`); any exception is swallowed and becomes `[]`. -/
def collect_from_source_safe (fetch : Except Unit (List NewsItem)) :
    List NewsItem :=
  match fetch with
  | Except.ok l => l
  | Except.error _ => []

/-! Section: backup generator and top-up (`BackupNewsGenerator`, `collect_news`). -/

/-- The static `backup_domestic` list of
`BackupNewsGenerator.generate_backup_news`, parametrized by the
`month_day` string interpolated into the summaries. -/
def backupDomestic (monthDay : List Char) : List NewsItem :=
  [ { title := "工信部发布人工智能产业发展指导意见".toList
    , summary := monthDay ++ "消息，工业和信息化部发布《关于促进人工智能产业高质量发展的指导意见》，提出到2027年人工智能核心产业规模超过万亿元的目标。".toList
    , url := [], source := "工信部".toList, category := "domestic".toList
    , priority := "high".toList, pub_date := [] }
  , { title := "中国科学院发布大模型评测报告".toList
    , summary := monthDay ++ "消息，中国科学院发布国产大模型能力评测报告，对主流大模型在多个维度进行了全面评估，为行业发展提供参考。".toList
    , url := [], source := "中国科学院".toList, category := "domestic".toList
    , priority := "medium".toList, pub_date := [] } ]

/-- The static `backup_international` list of
`BackupNewsGenerator.generate_backup_news`. -/
def backupInternational (monthDay : List Char) : List NewsItem :=
  [ { title := "美国商务部更新AI芯片出口管制规则".toList
    , summary := monthDay ++ "消息，美国商务部工业与安全局(BIS)发布更新的半导体出口管制规则，进一步收紧对先进AI芯片的出口限制。".toList
    , url := [], source := "US Commerce Dept".toList
    , category := "international".toList, priority := "high".toList
    , pub_date := [] }
  , { title := "欧盟AI办公室发布合规指南".toList
    , summary := monthDay ++ "消息，欧盟AI办公室发布《人工智能法案》实施细则，明确了高风险AI系统的合规要求和时间表。".toList
    , url := [], source := "EU AI Policy".toList
    , category := "international".toList, priority := "high".toList
    , pub_date := [] } ]

/-- Embed `BackupNewsGenerator.generate_backup_news` (collector.py lines
345-387): slice the static list of the requested group to `count`. -/
def generate_backup_news (monthDay category : List Char) (count : Nat) :
    List NewsItem :=
  if category = "domestic".toList then (backupDomestic monthDay).take count
  else (backupInternational monthDay).take count

/-- Constant `min_per_category = 10` in `collect_news`. -/
def min_per_category : Nat := 10

/-- The per-group top-up step of `collect_news` (collector.py lines
398-410): when a group holds fewer than `min_per_category` items,
extend it with `generate_backup_news` called for the shortfall. -/
def collect_news_topup (monthDay category : List Char)
    (collected : List NewsItem) : List NewsItem :=
  if collected.length < min_per_category then
    collected ++
      generate_backup_news monthDay category (min_per_category - collected.length)
  else collected

/-! Concrete inputs used by the scenario theorems, counterexamples and
witnesses below. -/

/-- Keyword table with one category holding two keywords that both
occur in the content below. -/
def c1Table : List KeywordCategory :=
  [{ name := "impact".toList, weight := 10, keywords := ["alpha".toList, "beta".toList] }]

/-- Content in which both keywords of `c1Table`'s single category occur. -/
def c1Content : List Char := "alpha beta".toList

/-- The scoring-example item of the spec. -/
def c3Item : NewsItem :=
  { title := "US issues new executive order restricting AI chip exports".toList
  , summary := "...".toList
  , url := [], source := "Reuters Technology".toList
  , category := [], priority := [], pub_date := [] }

/-- The scoring-example keyword table: policy (weight 80) and
export-control (weight 60). -/
def c3Table : List KeywordCategory :=
  [ { name := "policy".toList, weight := 80, keywords := ["executive order".toList] }
  , { name := "export-control".toList, weight := 60, keywords := ["export".toList] } ]

/-- The scoring-example source tier: multiplier 1.2 for Reuters
Technology. -/
def c3Tiers : List SourceTier :=
  [ { multiplier := 6/5, sources := ["Reuters Technology".toList] } ]

/-- An item whose title normalizes to the empty key (no
alphanumeric/CJK character) and whose url is empty. -/
def c4BadItem : NewsItem :=
  { title := "??????".toList, summary := [], url := [], source := [],
    category := [], priority := [], pub_date := [] }

/-- First item of the dedup scenario. -/
def c4ItemA : NewsItem :=
  { title := "OpenAI Releases GPT-5!".toList, summary := [],
    url := "https://a.example/1".toList, source := [], category := [],
    priority := [], pub_date := [] }

/-- Second item of the dedup scenario: same normalized title as
`c4ItemA`, different url. -/
def c4ItemB : NewsItem :=
  { title := "openai releases gpt 5".toList, summary := [],
    url := "https://b.example/2".toList, source := [], category := [],
    priority := [], pub_date := [] }

/-- A month-day string as `collect_news` interpolates it. -/
def c2MonthDay : List Char := "10月12日".toList

/-- A well-formed collected item. -/
def c2Dummy : NewsItem :=
  { title := "placeholder domestic story".toList, summary := [], url := [],
    source := [], category := "domestic".toList, priority := [], pub_date := [] }

/-- A domestic group of six collected items (the shortfall scenario). -/
def c2Six : List NewsItem := List.replicate 6 c2Dummy

/-- Run time of the temporal-filter scenario. -/
def c7Now : DateTime := ⟨2026, 10, 12, 9, 0, 0⟩

/-- Publication time three days before `c7Now` (by less than 72 hours,
so the fetcher's loose 3-day window admits it). -/
def c7Pub : DateTime := ⟨2026, 10, 9, 10, 0, 0⟩

/-- An item published at `c7Pub`. -/
def c7Item : NewsItem :=
  { title := "Some old AI story".toList, summary := [], url := [],
    source := [], category := [], priority := [], pub_date := fmtDateTime c7Pub }

/-- Run time of the feed-collection witness. -/
def c10Now : DateTime := ⟨2026, 10, 12, 9, 0, 0⟩

/-- A source descriptor for the feed-collection witness. -/
def c10Src : SourceDescriptor :=
  ⟨"TestWire".toList, "international".toList, "medium".toList⟩

/-- A feed entry whose published time parses to `c10Now`. -/
def c10Entry : Entry :=
  { title := "hello ai world".toList, link := "https://e.example/x".toList,
    summary := "s".toList, published_parsed := some (Except.ok c10Now),
    updated_parsed := none, created_parsed := none }

/-- The single-entry feed of the witness. -/
def c10Feed : Feed := ⟨false, [c10Entry]⟩

/-- The item `collect_from_rss` builds from `c10Entry`. -/
def c10Item : NewsItem :=
  { title := "hello ai world".toList, summary := "s".toList,
    url := "https://e.example/x".toList, source := "TestWire".toList,
    category := "international".toList, priority := "medium".toList,
    pub_date := fmtDateTime c10Now }

/-! Section: helper lemmas. -/

theorem dictGet_incr_same (d : ScoreDict) (k : List Char) (w : ℚ) :
    dictGet (dictIncr d k w) k = some ((dictGet d k).getD 0 + w) := by
  induction d with
  | nil => simp [dictIncr, dictGet]
  | cons p rest ih =>
    obtain ⟨k', v⟩ := p
    by_cases h : k' = k
    · subst h; simp [dictIncr, dictGet]
    · simp [dictIncr, dictGet, h, ih]

theorem dictGet_incr_other (d : ScoreDict) (k0 k : List Char) (w : ℚ)
    (h : k0 ≠ k) : dictGet (dictIncr d k0 w) k = dictGet d k := by
  induction d with
  | nil => simp [dictIncr, dictGet, h]
  | cons p rest ih =>
    obtain ⟨k', v⟩ := p
    by_cases h' : k' = k0
    · subst h'; simp [dictIncr, dictGet, h]
    · simp [dictIncr, dictGet, h', ih]

theorem foldl_keywordStep_get_same (kws : List (List Char)) (content k0 : List Char)
    (w : ℚ) (st : ScoreDict × List (List Char)) :
    dictGet (kws.foldl (keywordStep k0 w content) st).1 k0 =
      if matchedCount kws content = 0 then dictGet st.1 k0
      else some ((dictGet st.1 k0).getD 0 + (matchedCount kws content : ℚ) * w) := by
  induction kws generalizing st with
  | nil => simp [matchedCount]
  | cons kw kws ih =>
    by_cases h : containsSub content (lowerStr kw) = true
    · have hm : matchedCount (kw :: kws) content = matchedCount kws content + 1 := by
        simp [matchedCount, h]
      rw [List.foldl_cons, ih, hm]
      by_cases h0 : matchedCount kws content = 0
      · simp [h0, keywordStep, h, dictGet_incr_same]
      · simp [h0, keywordStep, h, dictGet_incr_same]
        ring
    · have hm : matchedCount (kw :: kws) content = matchedCount kws content := by
        simp [matchedCount, h]
      rw [List.foldl_cons, ih, hm]
      simp [keywordStep, h]

theorem foldl_keywordStep_get_other (kws : List (List Char)) (content k0 k : List Char)
    (w : ℚ) (st : ScoreDict × List (List Char)) (h : k0 ≠ k) :
    dictGet (kws.foldl (keywordStep k0 w content) st).1 k = dictGet st.1 k := by
  induction kws generalizing st with
  | nil => simp
  | cons kw kws ih =>
    rw [List.foldl_cons, ih]
    by_cases h' : containsSub content (lowerStr kw) = true
    · simp [keywordStep, h', dictGet_incr_other _ _ _ _ h]
    · simp [keywordStep, h']

theorem foldl_categoryStep_get_notmem (table : List KeywordCategory)
    (content k : List Char) (st : ScoreDict × List (List Char))
    (h : ∀ cfg ∈ table, cfg.name ≠ k) :
    dictGet (table.foldl (categoryStep content) st).1 k = dictGet st.1 k := by
  induction table generalizing st with
  | nil => simp
  | cons t ts ih =>
    rw [List.foldl_cons, ih _ (fun c hc => h c (List.mem_cons_of_mem _ hc))]
    exact foldl_keywordStep_get_other _ _ _ _ _ _ (h t (List.mem_cons_self _ _))

theorem scoreKeywords_get_aux (cfg : KeywordCategory) (content : List Char) :
    ∀ (table : List KeywordCategory) (st : ScoreDict × List (List Char)),
      (table.map (·.name)).Nodup → cfg ∈ table → dictGet st.1 cfg.name = none →
      dictGet (table.foldl (categoryStep content) st).1 cfg.name =
        if matchedCount cfg.keywords content = 0 then none
        else some (cfg.weight * (matchedCount cfg.keywords content : ℚ)) := by
  intro table
  induction table with
  | nil => intro st _ hmem _; cases hmem
  | cons t ts ih =>
    intro st hnd hmem hst
    rw [List.foldl_cons]
    have hnd' : (∀ x ∈ ts, ¬ x.name = t.name) ∧ (ts.map (·.name)).Nodup := by
      simpa using hnd
    rcases List.mem_cons.mp hmem with hEq | hmem'
    · subst hEq
      rw [foldl_categoryStep_get_notmem ts content _ _ hnd'.1]
      have := foldl_keywordStep_get_same cfg.keywords content cfg.name cfg.weight st
      rw [categoryStep, this, hst]
      by_cases h0 : matchedCount cfg.keywords content = 0
      · simp [h0]
      · simp [h0]; ring
    · have ht : t.name ≠ cfg.name := fun hEq => hnd'.1 cfg hmem' hEq.symm
      have hpres : dictGet (categoryStep content st t).1 cfg.name = none := by
        rw [categoryStep, foldl_keywordStep_get_other _ _ _ _ _ _ ht, hst]
      exact ih _ hnd'.2 hmem' hpres

theorem dedupGo_good (l : List NewsItem) :
    ∀ seenT seenU, GoodDedup (dedupGo l seenT seenU) seenT seenU := by
  induction l with
  | nil => intro seenT seenU; simp [dedupGo, GoodDedup]
  | cons n rest ih =>
    intro seenT seenU
    by_cases h1 : normalizeTitle n.title ≠ [] ∧ normalizeTitle n.title ∉ seenT
    · by_cases h2 : n.url = [] ∨ n.url ∉ seenU
      · simp only [dedupGo, if_pos h1, if_pos h2, GoodDedup]
        exact ⟨h1.1, h1.2, h2, ih _ _⟩
      · simp only [dedupGo, if_pos h1, if_neg h2]
        exact ih _ _
    · simp only [dedupGo, if_neg h1]
      exact ih _ _

theorem dedupGo_id (l : List NewsItem) :
    ∀ seenT seenU, GoodDedup l seenT seenU → dedupGo l seenT seenU = l := by
  induction l with
  | nil => intro _ _ _; rfl
  | cons n rest ih =>
    intro seenT seenU hg
    obtain ⟨h1, h2, h3, h4⟩ := hg
    simp only [dedupGo, if_pos (And.intro h1 h2), if_pos h3]
    rw [ih _ _ h4]

theorem dedupGo_sublist (l : List NewsItem) :
    ∀ seenT seenU, (dedupGo l seenT seenU).Sublist l := by
  induction l with
  | nil => intro _ _; simp [dedupGo]
  | cons n rest ih =>
    intro seenT seenU
    by_cases h1 : normalizeTitle n.title ≠ [] ∧ normalizeTitle n.title ∉ seenT
    · by_cases h2 : n.url = [] ∨ n.url ∉ seenU
      · simp only [dedupGo, if_pos h1, if_pos h2]
        exact (ih _ _).cons₂ n
      · simp only [dedupGo, if_pos h1, if_neg h2]
        exact (ih _ _).cons n
    · simp only [dedupGo, if_neg h1]
      exact (ih _ _).cons n

theorem good_notin (l : List NewsItem) :
    ∀ seenT seenU, GoodDedup l seenT seenU → ∀ b ∈ l,
      normalizeTitle b.title ≠ [] ∧ normalizeTitle b.title ∉ seenT ∧
      (b.url ≠ [] → b.url ∉ seenU) := by
  induction l with
  | nil => intro _ _ _ b hb; cases hb
  | cons n rest ih =>
    intro seenT seenU hg b hb
    obtain ⟨h1, h2, h3, h4⟩ := hg
    rcases List.mem_cons.mp hb with hEq | hb'
    · subst hEq
      exact ⟨h1, h2, fun hu => h3.resolve_left hu⟩
    · have := ih _ _ h4 b hb'
      refine ⟨this.1, fun hm => this.2.1 (List.mem_cons_of_mem _ hm), fun hu hm => ?_⟩
      by_cases hn : n.url = []
      · exact this.2.2 hu (by simpa [hn] using hm)
      · exact this.2.2 hu (by simp [hn]; exact Or.inr hm)

theorem good_pairwise (l : List NewsItem) :
    ∀ seenT seenU, GoodDedup l seenT seenU →
      l.Pairwise (fun a b => normalizeTitle a.title ≠ normalizeTitle b.title ∧
        (a.url ≠ [] → a.url ≠ b.url)) := by
  induction l with
  | nil => intro _ _ _; exact List.Pairwise.nil
  | cons n rest ih =>
    intro seenT seenU hg
    obtain ⟨h1, h2, h3, h4⟩ := hg
    refine List.Pairwise.cons ?_ (ih _ _ h4)
    intro b hb
    have hrest := good_notin rest _ _ h4 b hb
    constructor
    · intro hEq
      exact hrest.2.1 (by rw [← hEq]; exact List.mem_cons_self _ _)
    · intro hu hEq
      by_cases hb' : b.url = []
      · exact hu (hEq.trans hb')
      · have := hrest.2.2 hb'
        rw [← hEq] at this
        by_cases hn : n.url = []
        · exact hu hn
        · exact this (by simp [hn])

theorem dedupGo_drop_char (l : List NewsItem) :
    ∀ seenT seenU n, n ∈ l → n ∉ dedupGo l seenT seenU →
      normalizeTitle n.title = [] ∨ normalizeTitle n.title ∈ seenT ∨
      (∃ m ∈ dedupGo l seenT seenU,
        normalizeTitle m.title = normalizeTitle n.title) ∨
      (n.url ≠ [] ∧ (n.url ∈ seenU ∨ ∃ m ∈ dedupGo l seenT seenU, m.url = n.url)) := by
  induction l with
  | nil => intro _ _ n hn _; cases hn
  | cons x rest ih =>
    intro seenT seenU n hn hd
    by_cases h1 : normalizeTitle x.title ≠ [] ∧ normalizeTitle x.title ∉ seenT
    · by_cases h2 : x.url = [] ∨ x.url ∉ seenU
      · simp only [dedupGo, if_pos h1, if_pos h2] at hd ⊢
        have hdx : n ≠ x := fun hEq => hd (hEq ▸ List.mem_cons_self _ _)
        have hn' : n ∈ rest := (List.mem_cons.mp hn).resolve_left hdx
        have hd' : n ∉ dedupGo rest (normalizeTitle x.title :: seenT)
            (if x.url = [] then seenU else x.url :: seenU) :=
          fun hm => hd (List.mem_cons_of_mem _ hm)
        rcases ih _ _ n hn' hd' with h | h | ⟨m, hm, hmt⟩ | ⟨hu, h⟩
        · exact Or.inl h
        · rcases List.mem_cons.mp h with hEq | hmem
          · exact Or.inr (Or.inr (Or.inl ⟨x, List.mem_cons_self _ _, hEq.symm⟩))
          · exact Or.inr (Or.inl hmem)
        · exact Or.inr (Or.inr (Or.inl ⟨m, List.mem_cons_of_mem _ hm, hmt⟩))
        · rcases h with hmem | ⟨m, hm, hmu⟩
          · by_cases hx : x.url = []
            · rw [if_pos hx] at hmem
              exact Or.inr (Or.inr (Or.inr ⟨hu, Or.inl hmem⟩))
            · rw [if_neg hx] at hmem
              rcases List.mem_cons.mp hmem with hEq | hmem'
              · exact Or.inr (Or.inr (Or.inr
                  ⟨hu, Or.inr ⟨x, List.mem_cons_self _ _, hEq.symm⟩⟩))
              · exact Or.inr (Or.inr (Or.inr ⟨hu, Or.inl hmem'⟩))
          · exact Or.inr (Or.inr (Or.inr
              ⟨hu, Or.inr ⟨m, List.mem_cons_of_mem _ hm, hmu⟩⟩))
      · simp only [dedupGo, if_pos h1, if_neg h2] at hd ⊢
        rcases List.mem_cons.mp hn with hEq | hn'
        · subst hEq
          push_neg at h2
          exact Or.inr (Or.inr (Or.inr ⟨h2.1, Or.inl h2.2⟩))
        · exact ih _ _ n hn' hd
    · simp only [dedupGo, if_neg h1] at hd ⊢
      rcases List.mem_cons.mp hn with hEq | hn'
      · subst hEq
        rcases not_and_or.mp h1 with h | h
        · exact Or.inl (not_not.mp h)
        · exact Or.inr (Or.inl (not_not.mp h))
      · exact ih _ _ n hn' hd

theorem insertDesc_mem (x : ScoredItem) (l : List ScoredItem) (a : ScoredItem) :
    a ∈ insertDesc x l ↔ a = x ∨ a ∈ l := by
  induction l with
  | nil => simp [insertDesc]
  | cons y ys ih =>
    by_cases h : x.impact_score ≥ y.impact_score
    · simp [insertDesc, h]
    · simp [insertDesc, h, ih]
      tauto

theorem insertDesc_pairwise (x : ScoredItem) (l : List ScoredItem)
    (h : l.Pairwise (fun a b => b.impact_score ≤ a.impact_score)) :
    (insertDesc x l).Pairwise (fun a b => b.impact_score ≤ a.impact_score) := by
  induction l with
  | nil => simp [insertDesc]
  | cons y ys ih =>
    rcases List.pairwise_cons.mp h with ⟨hy, hys⟩
    by_cases hc : x.impact_score ≥ y.impact_score
    · rw [insertDesc, if_pos hc]
      refine List.pairwise_cons.mpr ⟨?_, h⟩
      intro b hb
      rcases List.mem_cons.mp hb with hEq | hb'
      · exact hEq ▸ hc
      · exact le_trans (hy b hb') hc
    · rw [insertDesc, if_neg hc]
      refine List.pairwise_cons.mpr ⟨?_, ih hys⟩
      intro b hb
      rcases (insertDesc_mem x ys b).mp hb with hEq | hb'
      · exact hEq ▸ (lt_of_not_ge hc).le
      · exact hy b hb'

theorem sortDesc_pairwise (l : List ScoredItem) :
    (sortDesc l).Pairwise (fun a b => b.impact_score ≤ a.impact_score) := by
  induction l with
  | nil => exact List.Pairwise.nil
  | cons x xs ih => exact insertDesc_pairwise x _ ih

theorem insertDesc_filter (x : ScoredItem) (l : List ScoredItem) (s : ℚ) :
    (insertDesc x l).filter (fun a => decide (a.impact_score = s)) =
      if x.impact_score = s
      then x :: l.filter (fun a => decide (a.impact_score = s))
      else l.filter (fun a => decide (a.impact_score = s)) := by
  induction l with
  | nil => by_cases h : x.impact_score = s <;> simp [insertDesc, h]
  | cons y ys ih =>
    by_cases hc : x.impact_score ≥ y.impact_score
    · rw [insertDesc, if_pos hc]
      by_cases h : x.impact_score = s <;> simp [List.filter_cons, h]
    · rw [insertDesc, if_neg hc]
      by_cases hy : y.impact_score = s
      · by_cases hx : x.impact_score = s
        · exact absurd (ge_of_eq (hx.trans hy.symm)) hc
        · simp [List.filter_cons, hy, hx, ih]
      · simp [List.filter_cons, hy, ih]

theorem sortDesc_filter (l : List ScoredItem) (s : ℚ) :
    (sortDesc l).filter (fun a => decide (a.impact_score = s)) =
      l.filter (fun a => decide (a.impact_score = s)) := by
  induction l with
  | nil => rfl
  | cons x xs ih =>
    rw [sortDesc, insertDesc_filter]
    by_cases h : x.impact_score = s <;> simp [List.filter_cons, h, ih]

theorem parse_pub_date_isSome (e : Entry) (now : DateTime) :
    (parse_pub_date e now).isSome = true := by
  rcases hp : e.published_parsed with _ | x
  · rcases hu : e.updated_parsed with _ | y
    · rcases hc : e.created_parsed with _ | z
      · simp [parse_pub_date, hp, hu, hc]
      · cases z <;> simp [parse_pub_date, hp, hu, hc]
    · cases y <;> simp [parse_pub_date, hp, hu]
  · cases x <;> simp [parse_pub_date, hp]

theorem fmtDateTime_ne_nil (d : DateTime) : fmtDateTime d ≠ [] := by
  simp [fmtDateTime, fmtDate, pad4]

theorem mkNewsItem_pub_date_ne_nil (src : SourceDescriptor) (now : DateTime)
    (e : Entry) (n : NewsItem) (h : mkNewsItem src now e = some n) :
    n.pub_date ≠ [] := by
  have hs := parse_pub_date_isSome e now
  rcases ho : parse_pub_date e now with _ | d
  · rw [ho] at hs; cases hs
  · by_cases hk : olderThanThreeDays now d
    · simp [mkNewsItem, ho, hk] at h
    · simp only [mkNewsItem, ho, hk, Bool.not_false, if_true] at h
      split at h
      · obtain rfl := Option.some_inj.mp h
        exact fmtDateTime_ne_nil d
      · cases h

/-! Section: claim theorems. -/

/-- C1 (corrected), counterexample: with a single category of weight 10
whose two keywords both occur in the content, the accumulated
per-category total is 20, not the category weight 10 — multiple keyword
hits within one category do compound. -/
theorem scoreKeywords_compounds_counterexample :
    matchedCount ["alpha".toList, "beta".toList] c1Content = 2 ∧
    dictGet (scoreKeywords c1Table c1Content).1 "impact".toList = some 20 ∧
    ¬ dictGet (scoreKeywords c1Table c1Content).1 "impact".toList = some 10 := by
  have h : dictGet (scoreKeywords c1Table c1Content).1 "impact".toList
      = some ((10:ℚ) + 10) := by
    simp +decide [scoreKeywords, categoryStep, keywordStep, dictIncr, dictGet,
      c1Table, c1Content]
  refine ⟨by decide, ?_, ?_⟩
  · rw [h]; norm_num
  · rw [h]; norm_num

/-- C1 (amended): for a keyword table whose category names are distinct
(as the keys of the Python dict `IMPACT_KEYWORDS` are), the accumulated
total of a category equals its weight times the number of its keywords
contained in the content — one accumulation per matched keyword, absent
entirely when no keyword matches. -/
theorem scoreKeywords_category_total (table : List KeywordCategory)
    (content : List Char) (hnd : (table.map (·.name)).Nodup)
    (cfg : KeywordCategory) (hmem : cfg ∈ table) :
    dictGet (scoreKeywords table content).1 cfg.name =
      if matchedCount cfg.keywords content = 0 then none
      else some (cfg.weight * (matchedCount cfg.keywords content : ℚ)) :=
  scoreKeywords_get_aux cfg content table ([], []) hnd hmem rfl

/-- C1 witness: the amended statement evaluated on `c1Table`. -/
theorem scoreKeywords_category_total_witness :
    dictGet (scoreKeywords c1Table c1Content).1 "impact".toList =
      if matchedCount ["alpha".toList, "beta".toList] c1Content = 0 then none
      else some ((10:ℚ) * (matchedCount ["alpha".toList, "beta".toList] c1Content : ℚ)) :=
  scoreKeywords_category_total c1Table c1Content (by decide)
    ⟨"impact".toList, 10, ["alpha".toList, "beta".toList]⟩ (by decide)

/-- C2 (corrected), counterexample: a domestic group of 6 collected
items is topped up to 8, not 10 — the static backup pool holds only 2
items per group, so only 2 of the requested 4 are appended. -/
theorem collect_news_topup_shortfall_counterexample :
    (collect_news_topup c2MonthDay "domestic".toList c2Six).length = 8 ∧
    (collect_news_topup c2MonthDay "domestic".toList c2Six).length ≠ 10 := by
  decide

/-- C2 (amended): for a group with fewer than the per-group minimum of
10 items, `collect_news` appends `min (10 − n) 2` fallback items — the
shortfall capped by the size of the static backup pool (2 per group). -/
theorem collect_news_topup_length (monthDay category : List Char)
    (collected : List NewsItem) (h : collected.length < min_per_category) :
    (collect_news_topup monthDay category collected).length =
      collected.length + min (min_per_category - collected.length) 2 := by
  have hlen : ∀ count, (generate_backup_news monthDay category count).length
      = min count 2 := by
    intro count
    rw [generate_backup_news]
    by_cases hc : category = "domestic".toList
    · rw [if_pos hc]; simp [backupDomestic]
    · rw [if_neg hc]; simp [backupInternational]
  rw [collect_news_topup, if_pos h, List.length_append, hlen]

/-- C2 witness: the amended statement evaluated on the six-item group. -/
theorem collect_news_topup_length_witness :
    (collect_news_topup c2MonthDay "domestic".toList c2Six).length =
      c2Six.length + min (min_per_category - c2Six.length) 2 :=
  collect_news_topup_length c2MonthDay "domestic".toList c2Six (by decide)

/-- C3 (confirmed): on the spec scoring example, the base score is
max(80,60) = 80 and the final result is (80 × 1.2 + 15, High). -/
theorem calculateScore_scoring_example :
    maxValues (scoreKeywords c3Table
      (lowerStr c3Item.title ++ [' '] ++ lowerStr c3Item.summary)).1 = 80 ∧
    calculateScore c3Table c3Tiers c3Item = (111, "高".toList) := by
  have hdict : (scoreKeywords c3Table
      (lowerStr c3Item.title ++ [' '] ++ lowerStr c3Item.summary)).1
      = [("policy".toList, (80:ℚ)), ("export-control".toList, (60:ℚ))] := by
    decide
  have hwords : (importantTitleWords.filter
      (fun w => containsSub (lowerStr c3Item.title) (lowerStr w))).length = 0 := by
    decide
  have hmult : sourceMultiplier c3Tiers c3Item.source = 6/5 := by
    simp +decide [sourceMultiplier, c3Tiers, c3Item]
  constructor
  · rw [hdict]; norm_num [maxValues]
  · simp only [calculateScore, hdict, hwords, hmult]
    norm_num [maxValues, determineImportance]

/-- C4 (corrected), counterexample: a single item whose title
normalizes to the empty key and whose url is empty is discarded even
though neither its normalized title nor its url was ever seen — the
claimed discard condition wrongly predicts it survives. -/
theorem deduplicate_drops_empty_key_counterexample :
    deduplicate [c4BadItem] = [] ∧ deduplicate [c4BadItem] ≠ [c4BadItem] := by
  decide

/-- C4 (amended): the dedup output is a sublist of the input (so the
first-seen item wins and input order is preserved), kept items have
pairwise distinct non-empty normalized titles and pairwise distinct
non-empty urls, and a dropped item either has an empty normalized
title, or shares its normalized title with a kept item, or has a
non-empty url shared with a kept item; an item with an empty url is
deduplicated on its title (and emptiness) alone. -/
theorem deduplicate_characterization (l : List NewsItem) (n : NewsItem)
    (hn : n ∈ l) (hd : n ∉ deduplicate l) :
    (deduplicate l).Sublist l ∧
    (deduplicate l).Pairwise (fun a b =>
      normalizeTitle a.title ≠ normalizeTitle b.title ∧
        (a.url ≠ [] → a.url ≠ b.url)) ∧
    (normalizeTitle n.title = [] ∨
      (∃ m ∈ deduplicate l, normalizeTitle m.title = normalizeTitle n.title) ∨
      (n.url ≠ [] ∧ ∃ m ∈ deduplicate l, m.url = n.url)) := by
  refine ⟨dedupGo_sublist l [] [], good_pairwise _ [] [] (dedupGo_good l [] []), ?_⟩
  rcases dedupGo_drop_char l [] [] n hn hd with h | h | h | ⟨hu, h⟩
  · exact Or.inl h
  · cases h
  · exact Or.inr (Or.inl h)
  · rcases h with h | h
    · cases h
    · exact Or.inr (Or.inr ⟨hu, h⟩)

/-- C4 witness: the spec dedup scenario — of the two items whose
titles normalize to the same key, the second (with a different url) is
dropped, matching the drop characterization. -/
theorem deduplicate_characterization_witness :
    (deduplicate [c4ItemA, c4ItemB]).Sublist [c4ItemA, c4ItemB] ∧
    (deduplicate [c4ItemA, c4ItemB]).Pairwise (fun a b =>
      normalizeTitle a.title ≠ normalizeTitle b.title ∧
        (a.url ≠ [] → a.url ≠ b.url)) ∧
    (normalizeTitle c4ItemB.title = [] ∨
      (∃ m ∈ deduplicate [c4ItemA, c4ItemB],
        normalizeTitle m.title = normalizeTitle c4ItemB.title) ∨
      (c4ItemB.url ≠ [] ∧ ∃ m ∈ deduplicate [c4ItemA, c4ItemB],
        m.url = c4ItemB.url)) :=
  deduplicate_characterization [c4ItemA, c4ItemB] c4ItemB (by decide) (by decide)

/-- C5 (confirmed): deduplication is idempotent — applying
`deduplicate` to its own output returns that output unchanged. -/
theorem deduplicate_idempotent (l : List NewsItem) :
    deduplicate (deduplicate l) = deduplicate l :=
  dedupGo_id _ _ _ (dedupGo_good l [] [])

/-- C6 (confirmed): the importance tier is a total function of the
final score — score ≥ 80 yields High ("高"), 40 ≤ score < 80 yields
Medium ("中"), score < 40 yields Low ("低"), and every score falls in
one of the three tiers. -/
theorem determineImportance_tiers (s : ℚ) :
    (s ≥ 80 → determineImportance s = "高".toList) ∧
    (40 ≤ s ∧ s < 80 → determineImportance s = "中".toList) ∧
    (s < 40 → determineImportance s = "低".toList) ∧
    (determineImportance s = "高".toList ∨ determineImportance s = "中".toList ∨
      determineImportance s = "低".toList) := by
  refine ⟨fun h => ?_, fun h => ?_, fun h => ?_, ?_⟩
  · rw [determineImportance, if_pos h]
  · rw [determineImportance, if_neg (by linarith), if_pos (by linarith)]
  · rw [determineImportance, if_neg (by linarith), if_neg (by linarith)]
  · rw [determineImportance]
    split_ifs <;> simp

/-- C6 witness: the three tiers at scores 100, 50 and 10. -/
theorem determineImportance_tiers_witness :
    determineImportance 100 = "高".toList ∧
    determineImportance 50 = "中".toList ∧
    determineImportance 10 = "低".toList :=
  ⟨(determineImportance_tiers 100).1 (by norm_num),
   (determineImportance_tiers 50).2.1 ⟨by norm_num, by norm_num⟩,
   (determineImportance_tiers 10).2.2.1 (by norm_num)⟩

/-- C7 (confirmed): an item survives the temporal filter iff it is in
the input and its `pub_date` is empty or its date prefix is today's or
yesterday's date string; concretely, an item dated three days before
the run date is dropped although the fetcher's looser 3-day window
admitted it. -/
theorem filter_by_date_spec :
    (∀ now l n, n ∈ filter_by_date now l ↔
      n ∈ l ∧ (n.pub_date = [] ∨ n.pub_date.take 10 = fmtDate now ∨
        n.pub_date.take 10 = fmtDate (prevDay now))) ∧
    olderThanThreeDays c7Now c7Pub = false ∧
    c7Item ∉ filter_by_date c7Now [c7Item] := by
  refine ⟨fun now l n => ?_, by decide, by decide⟩
  simp [filter_by_date, List.mem_filter, List.isEmpty_iff]

/-- C8 (confirmed): the ranker's output is sorted non-increasing by
impact score, and for every score value the equal-score items appear in
the same order as in the scored input (stable descending sort). -/
theorem rank_news_sorted_stable (table : List KeywordCategory)
    (tiers : List SourceTier) (l : List NewsItem) :
    (rank_news table tiers l).Pairwise
      (fun a b => b.impact_score ≤ a.impact_score) ∧
    ∀ s : ℚ, (rank_news table tiers l).filter (fun a => decide (a.impact_score = s)) =
      (l.map (scoreItem table tiers)).filter (fun a => decide (a.impact_score = s)) :=
  ⟨sortDesc_pairwise _, fun s => sortDesc_filter _ s⟩

/-- C9 (confirmed): the per-source fetch wrapper turns any raised
exception into the empty list and passes a successful result through;
likewise the RSS collector yields the empty list when the transport
call raises, and a successful fetch yields at most 30 items. -/
theorem collect_from_source_safe_spec :
    (∀ e, collect_from_source_safe (Except.error e) = []) ∧
    (∀ l, collect_from_source_safe (Except.ok l) = l) ∧
    (∀ src now e, collect_from_rss src now (Except.error e) = []) ∧
    (∀ src now feed, (collect_from_rss src now (Except.ok feed)).length ≤ 30) := by
  refine ⟨fun _ => rfl, fun _ => rfl, fun _ _ _ => rfl, fun src now feed => ?_⟩
  rw [collect_from_rss]
  by_cases h : feed.bozo && feed.entries.isEmpty
  · rw [if_pos h]; simp
  · rw [if_neg h]
    calc ((feed.entries.take 30).filterMap (mkNewsItem src now)).length
        ≤ (feed.entries.take 30).length := List.length_filterMap_le _ _
      _ ≤ 30 := by simp [List.length_take]

/-- C10 (confirmed): the date parser always returns a time (also when
every field is absent or its conversion raises), every item produced by
the feed collector carries a non-empty `pub_date`, and on a list of
dated items the temporal filter reduces to the pure date test — its
keep-undated branch is never exercised for feed-collected items. -/
theorem feed_items_always_dated :
    (∀ e now, (parse_pub_date e now).isSome = true) ∧
    (∀ src now resp n, n ∈ collect_from_rss src now resp → n.pub_date ≠ []) ∧
    (∀ now l, (∀ n ∈ l, n.pub_date ≠ []) →
      filter_by_date now l = l.filter (fun n =>
        decide (n.pub_date.take 10 ∈ [fmtDate now, fmtDate (prevDay now)]))) := by
  refine ⟨parse_pub_date_isSome, fun src now resp n hn => ?_, fun now l h => ?_⟩
  · match resp with
    | Except.error e => simp [collect_from_rss] at hn
    | Except.ok feed =>
      rw [collect_from_rss] at hn
      by_cases hb : feed.bozo && feed.entries.isEmpty
      · rw [if_pos hb] at hn; cases hn
      · rw [if_neg hb] at hn
        obtain ⟨e, _, he⟩ := List.mem_filterMap.mp hn
        exact mkNewsItem_pub_date_ne_nil src now e n he
  · rw [filter_by_date]
    apply List.filter_congr
    intro n hn
    simp [List.isEmpty_iff, h n hn]

/-- C10 witness: the concrete single-entry feed — its produced item is
dated, and the temporal filter on it reduces to the date test. -/
theorem feed_items_always_dated_witness :
    c10Item.pub_date ≠ [] ∧
    filter_by_date c10Now [c10Item] = [c10Item].filter (fun n =>
      decide (n.pub_date.take 10 ∈ [fmtDate c10Now, fmtDate (prevDay c10Now)])) :=
  ⟨feed_items_always_dated.2.1 c10Src c10Now (Except.ok c10Feed) c10Item (by decide),
   feed_items_always_dated.2.2 c10Now [c10Item] (by decide)⟩

end AIDailyNews
